import Mathlib

/-!
Verification development for the min-max feature-scaling component
("RangeScaler") and the experiment glue of the Feature_Engineering_1
repository (notebook `Variable magnitude_3.7.ipynb`).

The notebook itself only calls an external scaling library; the spec's
RangeScaler / ExperimentRunner components are designs whose implementation
is not part of the repository's sources.  Where the deciding code is
missing, the definitions below are modelled from the spec and from the
transform formulas the notebook's own markdown records
(`X_rescaled = (X - X.min) / (X.max - X.min)` and
`X = X_rescaled * (max - min) + min`).  Real numbers are modelled by
rationals, so floating-point rounding is absent and "equality within
floating-point tolerance" becomes exact equality.
-/

namespace FeatureScaling

/-- A feature matrix: an ordered collection of numeric rows
(column order significant).  Numeric values are modelled as rationals. -/
abbrev FeatureMatrix := List (List ℚ)

/-- ScalerState: the per-column (minimum, maximum) pairs captured by `fit`. -/
abbrev ScalerState := List (ℚ × ℚ)

/-- Modelled from the spec: the error taxonomy of §7
(`InvalidInputError`, `UnfittedStateError`, `DegenerateColumnError`). -/
inductive ScalerError where
  | invalidInputError
  | unfittedStateError
  | degenerateColumnError
  deriving DecidableEq, Repr

/-- Number of columns of a matrix (width of its first row). -/
def numCols (M : FeatureMatrix) : ℕ := (M.headD []).length

/-- Whether every row has the same number of columns (not ragged). -/
def isRectangular (M : FeatureMatrix) : Bool :=
  M.all (fun r => r.length == numCols M)

/-- The i-th column of a matrix, as the list of the i-th entries of its rows. -/
def column (M : FeatureMatrix) (i : ℕ) : List ℚ :=
  M.map (fun r => r.getD i 0)

/-- Minimum of a list of rationals (0 on the empty list, never used there). -/
def listMin : List ℚ → ℚ
  | [] => 0
  | [x] => x
  | x :: y :: t => min x (listMin (y :: t))

/-- Maximum of a list of rationals (0 on the empty list, never used there). -/
def listMax : List ℚ → ℚ
  | [] => 0
  | [x] => x
  | x :: y :: t => max x (listMax (y :: t))

/-- The per-column (min, max) bounds of a matrix. -/
def fitBounds (M : FeatureMatrix) : ScalerState :=
  (List.range (numCols M)).map (fun i => (listMin (column M i), listMax (column M i)))

/-- Modelled from the spec: `fit(trainingMatrix)` computes, per column i,
`min_i` and `max_i`, and fails with `InvalidInputError` on an empty or
ragged matrix (§4.1, §7); the notebook only calls the external scaler. -/
def fit (M : FeatureMatrix) : Except ScalerError ScalerState :=
  if M = [] then .error .invalidInputError
  else if isRectangular M then .ok (fitBounds M)
  else .error .invalidInputError

/-- Forward scaling of one value, given the fitted column bounds: the
notebook's formula `(x - min) / (max - min)`, with the spec's recommended
degenerate-column policy (output 0 when `max = min`, §4.1/§7). -/
def scaleValue (mn mx x : ℚ) : ℚ :=
  if mx = mn then 0 else (x - mn) / (mx - mn)

/-- Inverse scaling of one value: the notebook's formula
`s * (max - min) + min`. -/
def unscaleValue (mn mx s : ℚ) : ℚ := s * (mx - mn) + mn

/-- Transform one row, pairing each entry with its column's fitted bounds. -/
def transformRow (st : ScalerState) (row : List ℚ) : List ℚ :=
  (row.zip st).map (fun p => scaleValue p.2.1 p.2.2 p.1)

/-- Modelled from the spec: `transform(matrix)` maps every element x in
column i to `(x - min_i) / (max_i - min_i)` (§4.1). -/
def transform (st : ScalerState) (M : FeatureMatrix) : FeatureMatrix :=
  M.map (transformRow st)

/-- Inverse-transform one row. -/
def inverseTransformRow (st : ScalerState) (row : List ℚ) : List ℚ :=
  (row.zip st).map (fun p => unscaleValue p.2.1 p.2.2 p.1)

/-- Modelled from the spec: `inverseTransform(scaledMatrix)` maps every
element s in column i to `s * (max_i - min_i) + min_i` (§4.1). -/
def inverseTransform (st : ScalerState) (M : FeatureMatrix) : FeatureMatrix :=
  M.map (inverseTransformRow st)

/-- Modelled from the spec: the scaler's two-state lifecycle; `none` is the
Unfitted initial state, `some st` the Fitted state (§4.1). -/
def initScaler : Option ScalerState := none

/-- Modelled from the spec: `fit` on a scaler instance replaces the stored
state on success (re-fitting allowed, §4.1). -/
def fitScaler (_s : Option ScalerState) (M : FeatureMatrix) :
    Except ScalerError (Option ScalerState) :=
  (fit M).map (fun st => some st)

/-- Modelled from the spec: `transform` requires `fit` to have been called
previously and fails with `UnfittedStateError` otherwise (§4.1, §7). -/
def transformScaler : Option ScalerState → FeatureMatrix →
    Except ScalerError FeatureMatrix
  | none, _ => .error .unfittedStateError
  | some st, M => .ok (transform st M)

/-- A raw dataset row as loaded from the tabular file: entries may be
missing (`none`), as in the Age column of the Titanic data. -/
abbrev RawRow := List (Option ℚ)

/-- Fill the missing entries of one raw row with the default 0, as the
notebook's `fillna(0)` does (cell-9). -/
def fillRow (r : RawRow) : List ℚ := r.map (fun v => v.getD 0)

/-- Fill every missing value of the predictor table with 0 (cell-9's
`fillna(0)` applied to the whole predictor matrix). -/
def fillna0 (D : List RawRow) : FeatureMatrix := D.map fillRow

/-- Select the rows whose index satisfies the given predicate, keeping
their order (an abstract index-based split of the rows). -/
def selectRows (f : ℕ → Bool) : ℕ → FeatureMatrix → FeatureMatrix
  | _, [] => []
  | i, r :: rs =>
    if f i then r :: selectRows f (i + 1) rs else selectRows f (i + 1) rs

/-- The notebook's prepared train/test predictor split (cell-9): missing
values are filled with 0 first, then rows are partitioned into a train and
a test part; the external splitter's shuffle is abstracted by an arbitrary
index predicate choosing the test rows. -/
def splitPredictors (D : List RawRow) (isTest : ℕ → Bool) :
    FeatureMatrix × FeatureMatrix :=
  (selectRows (fun i => !(isTest i)) 0 (fillna0 D),
   selectRows isTest 0 (fillna0 D))

/-- Modelled from the spec: an opaque model collaborator of the
ExperimentRunner (§4.2, §6) with a name and a fit-and-score evaluation that
may fail; the notebook binds such collaborators from an external library. -/
structure ModelCollaborator where
  name : String
  evalModel : FeatureMatrix → FeatureMatrix → Except String ℚ

/-- Modelled from the spec: the ExperimentRunner evaluates each named model
collaborator in turn and records its score or its failure per model, so one
model's failure does not abort the others (§4.2, §7); the runner exists
only as the spec's design, the notebook inlines the calls cell by cell. -/
def runExperiment (models : List ModelCollaborator)
    (train test : FeatureMatrix) : List (String × Except String ℚ) :=
  models.map (fun m => (m.name, m.evalModel train test))

/-- The variable bindings of the notebook around the scaling cell: the
train and test predictor matrices and the values the scaling cell creates. -/
structure NotebookEnv where
  xTrain : FeatureMatrix
  xTest : FeatureMatrix
  xTrainScaled : Option FeatureMatrix
  xTestScaled : Option FeatureMatrix
  scalerSt : Option ScalerState
  deriving DecidableEq

/-- The scaling cell (cell-11): fit the scaler on `X_train`, then bind
`X_train_scaled` and `X_test_scaled` to freshly produced scaled matrices;
the bindings of `X_train` and `X_test` themselves are not written. -/
def runScalingCell (env : NotebookEnv) : Except ScalerError NotebookEnv := do
  let st ← fit env.xTrain
  let tr ← transformScaler (some st) env.xTrain
  let te ← transformScaler (some st) env.xTest
  pure { env with
    scalerSt := some st, xTrainScaled := some tr, xTestScaled := some te }

/-- A model collaborator that always fails (witness input for the
failure-isolation property). -/
def failingModel : ModelCollaborator :=
  ⟨"svm", fun _ _ => .error "diverged"⟩

/-- A model collaborator that always succeeds with score 7/10 (witness
input for the failure-isolation property). -/
def succeedingModel : ModelCollaborator :=
  ⟨"logistic", fun _ _ => .ok (7/10)⟩

/-! ### Helper lemmas about lists -/

theorem listMin_le : ∀ (l : List ℚ), ∀ x ∈ l, listMin l ≤ x := by
  intro l
  induction l with
  | nil => intro x hx; cases hx
  | cons a t ih =>
    intro x hx
    cases t with
    | nil =>
      rcases List.mem_cons.mp hx with h | h
      · simp [listMin, h]
      · cases h
    | cons b t2 =>
      rw [listMin]
      rcases List.mem_cons.mp hx with h | h
      · subst h; exact min_le_left _ _
      · exact le_trans (min_le_right _ _) (ih x h)

theorem le_listMax : ∀ (l : List ℚ), ∀ x ∈ l, x ≤ listMax l := by
  intro l
  induction l with
  | nil => intro x hx; cases hx
  | cons a t ih =>
    intro x hx
    cases t with
    | nil =>
      rcases List.mem_cons.mp hx with h | h
      · simp [listMax, h]
      · cases h
    | cons b t2 =>
      rw [listMax]
      rcases List.mem_cons.mp hx with h | h
      · subst h; exact le_max_left _ _
      · exact le_trans (ih x h) (le_max_right _ _)

theorem listMin_mem : ∀ (l : List ℚ), l ≠ [] → listMin l ∈ l := by
  intro l
  induction l with
  | nil => intro h; exact absurd rfl h
  | cons a t ih =>
    intro _
    cases t with
    | nil => simp [listMin]
    | cons b t2 =>
      rw [listMin]
      rcases le_total a (listMin (b :: t2)) with h | h
      · simp [min_eq_left h]
      · have := ih (by simp)
        simp [min_eq_right h]
        right
        simpa using this

theorem listMax_mem : ∀ (l : List ℚ), l ≠ [] → listMax l ∈ l := by
  intro l
  induction l with
  | nil => intro h; exact absurd rfl h
  | cons a t ih =>
    intro _
    cases t with
    | nil => simp [listMax]
    | cons b t2 =>
      rw [listMax]
      rcases le_total (listMax (b :: t2)) a with h | h
      · simp [max_eq_left h]
      · have := ih (by simp)
        simp [max_eq_right h]
        right
        simpa using this

theorem getElem?_of_lt_length (l : List ℚ) (i : ℕ) (h : i < l.length) :
    l[i]? = some (l.getD i 0) := by
  rw [List.getElem?_eq_getElem h, List.getD_eq_getElem l 0 h]

theorem transformRow_get (st : ScalerState) (row : List ℚ) (i : ℕ)
    (x : ℚ) (mn mx : ℚ)
    (hx : row[i]? = some x) (hb : st[i]? = some (mn, mx)) :
    (transformRow st row)[i]? = some (scaleValue mn mx x) := by
  induction i generalizing row st with
  | zero =>
    cases row with
    | nil => cases hx
    | cons a r =>
      cases st with
      | nil => cases hb
      | cons p q =>
        simp at hx hb
        simp [transformRow, hx, hb]
  | succ j ih =>
    cases row with
    | nil => cases hx
    | cons a r =>
      cases st with
      | nil => cases hb
      | cons p q =>
        simp at hx hb
        simpa [transformRow] using ih q r hx hb

theorem rect_row_length (M : FeatureMatrix) (hrect : isRectangular M = true) :
    ∀ r ∈ M, r.length = numCols M := by
  intro r hr
  simpa using List.all_eq_true.mp hrect r hr

theorem fitBounds_length (M : FeatureMatrix) :
    (fitBounds M).length = numCols M := by
  simp [fitBounds]

theorem fitBounds_get (M : FeatureMatrix) (i : ℕ) (hi : i < numCols M) :
    (fitBounds M)[i]? =
      some (listMin (column M i), listMax (column M i)) := by
  simp [fitBounds, List.getElem?_map, List.getElem?_range, hi]

theorem fit_eq_ok (M : FeatureMatrix) (hne : M ≠ [])
    (hrect : isRectangular M = true) : fit M = .ok (fitBounds M) := by
  simp [fit, hne, hrect]

theorem fit_ok_inv (M : FeatureMatrix) (st : ScalerState)
    (h : fit M = .ok st) :
    M ≠ [] ∧ isRectangular M = true ∧ st = fitBounds M := by
  by_cases hne : M = []
  · simp [fit, hne] at h
  · by_cases hrect : isRectangular M
    · refine ⟨hne, hrect, ?_⟩
      rw [fit_eq_ok M hne hrect] at h
      exact (Except.ok.injEq _ _ ).mp h.symm
    · simp [fit, hne, hrect] at h

theorem column_nonempty (M : FeatureMatrix) (hne : M ≠ []) (i : ℕ) :
    column M i ≠ [] := by
  cases M with
  | nil => exact absurd rfl hne
  | cons r t => simp [column]

/-- The i-th entry of the transformed version of a row of M, for
rectangular M with its fitted bounds. -/
theorem transform_entry (M : FeatureMatrix) (hrect : isRectangular M = true)
    (i : ℕ) (hi : i < numCols M) (r : List ℚ) (hr : r ∈ M) :
    (transformRow (fitBounds M) r).getD i 0 =
      scaleValue (listMin (column M i)) (listMax (column M i)) (r.getD i 0) := by
  have hlen : r.length = numCols M := rect_row_length M hrect r hr
  have hx : r[i]? = some (r.getD i 0) :=
    getElem?_of_lt_length r i (by rw [hlen]; exact hi)
  have hb := fitBounds_get M i hi
  have := transformRow_get (fitBounds M) r i (r.getD i 0) _ _ hx hb
  simp [List.getD_eq_getD_get?, List.get?_eq_getElem?, this]

theorem column_transform (M : FeatureMatrix) (st : ScalerState) (i : ℕ) :
    column (transform st M) i = M.map (fun r => (transformRow st r).getD i 0) := by
  simp [column, transform, List.map_map]

theorem mem_column (M : FeatureMatrix) (i : ℕ) (v : ℚ) :
    v ∈ column M i ↔ ∃ r ∈ M, r.getD i 0 = v := by
  simp [column]

theorem transformRow_cons (p : ℚ × ℚ) (q : ScalerState) (a : ℚ) (r : List ℚ) :
    transformRow (p :: q) (a :: r) = scaleValue p.1 p.2 a :: transformRow q r := rfl

theorem invTransformRow_cons (p : ℚ × ℚ) (q : ScalerState) (a : ℚ) (r : List ℚ) :
    inverseTransformRow (p :: q) (a :: r) =
      unscaleValue p.1 p.2 a :: inverseTransformRow q r := rfl

theorem roundtrip_row (st : ScalerState) (row : List ℚ)
    (hlen : row.length = st.length) (hnd : ∀ p ∈ st, p.1 ≠ p.2) :
    inverseTransformRow st (transformRow st row) = row := by
  induction row generalizing st with
  | nil =>
    simp [transformRow, inverseTransformRow]
  | cons a r ih =>
    cases st with
    | nil => cases hlen
    | cons p q =>
      have hp : p.1 ≠ p.2 := hnd p (List.mem_cons_self p q)
      have h2 : p.2 - p.1 ≠ 0 := sub_ne_zero.mpr (Ne.symm hp)
      rw [transformRow_cons, invTransformRow_cons,
        ih q (Nat.succ_injective hlen) (fun x hx => hnd x (List.mem_cons_of_mem p hx))]
      have : unscaleValue p.1 p.2 (scaleValue p.1 p.2 a) = a := by
        rw [scaleValue, if_neg (Ne.symm hp), unscaleValue,
          div_mul_cancel₀ _ h2, sub_add_cancel]
      rw [this]

/-! ### The claims -/

/-- C1: for every training matrix, `fit` records in the scaler state, per
column i, exactly the column minimum `min_i` and maximum `max_i` of the
training matrix (genuine extrema: members of the column bounding every
entry), and `transform` maps every element x in column i of any matrix to
`(x - min_i) / (max_i - min_i)` (stated for non-degenerate columns; the
degenerate branch is the documented policy of C4). -/
theorem c1_fit_records_extrema_transform_formula
    (M : FeatureMatrix) (hne : M ≠ []) (hrect : isRectangular M = true) :
    ∃ st, fit M = .ok st ∧ st.length = numCols M ∧
      (∀ i, i < numCols M →
        st[i]? = some (listMin (column M i), listMax (column M i)) ∧
        listMin (column M i) ∈ column M i ∧
        listMax (column M i) ∈ column M i ∧
        ∀ x ∈ column M i, listMin (column M i) ≤ x ∧ x ≤ listMax (column M i)) ∧
      (∀ (Y : FeatureMatrix) (row : List ℚ) (i : ℕ) (x mn mx : ℚ),
        row ∈ Y → st[i]? = some (mn, mx) → row[i]? = some x → mx ≠ mn →
        transformRow st row ∈ transform st Y ∧
        (transformRow st row)[i]? = some ((x - mn) / (mx - mn))) := by
  refine ⟨fitBounds M, fit_eq_ok M hne hrect, fitBounds_length M, ?_, ?_⟩
  · intro i hi
    exact ⟨fitBounds_get M i hi,
      listMin_mem _ (column_nonempty M hne i),
      listMax_mem _ (column_nonempty M hne i),
      fun x hx => ⟨listMin_le _ x hx, le_listMax _ x hx⟩⟩
  · intro Y row i x mn mx hrow hb hx hnd
    refine ⟨List.mem_map_of_mem _ hrow, ?_⟩
    rw [transformRow_get (fitBounds M) row i x mn mx hx hb]
    simp [scaleValue, hnd]

/-- Witness for C1 at the training matrix [[1,10],[3,20],[5,30]]. -/
theorem c1_witness :
    ∃ st, fit [[(1:ℚ),10],[3,20],[5,30]] = .ok st ∧
      st.length = numCols [[(1:ℚ),10],[3,20],[5,30]] := by
  obtain ⟨st, h1, h2, -, -⟩ :=
    c1_fit_records_extrema_transform_formula [[(1:ℚ),10],[3,20],[5,30]]
      (by simp) (by decide)
  exact ⟨st, h1, h2⟩

/-- C2: for every fitted scaler and every matrix Y whose rows have the
training column count, with no degenerate fitted column,
`inverseTransform (transform Y)` equals Y exactly (rationals model the
reals, so the floating-point tolerance is met with exact equality). -/
theorem c2_inverse_transform_roundtrip
    (M : FeatureMatrix) (st : ScalerState) (Y : FeatureMatrix)
    (hfit : fit M = .ok st)
    (hlen : ∀ row ∈ Y, row.length = numCols M)
    (hnd : ∀ p ∈ st, p.1 ≠ p.2) :
    inverseTransform st (transform st Y) = Y := by
  obtain ⟨-, -, hst⟩ := fit_ok_inv M st hfit
  have hcols : ∀ row ∈ Y, row.length = st.length := by
    intro row hr
    rw [hst, fitBounds_length]
    exact hlen row hr
  unfold inverseTransform transform
  rw [List.map_map]
  induction Y with
  | nil => rfl
  | cons r t ih =>
    simp only [List.map_cons, Function.comp]
    rw [roundtrip_row st r (hcols r (List.mem_cons_self r t)) hnd]
    have := ih (fun row hr => hlen row (List.mem_cons_of_mem r hr))
      (fun row hr => hcols row (List.mem_cons_of_mem r hr))
    simpa using this

/-- Witness for C2: scaler fitted on [[1,10],[3,20],[5,30]], round-tripping
the unseen matrix [[2,15],[6,35]]. -/
theorem c2_witness :
    inverseTransform [((1:ℚ),5),(10,30)]
        (transform [((1:ℚ),5),(10,30)] [[2,15],[6,35]]) = [[2,15],[6,35]] := by
  refine c2_inverse_transform_roundtrip [[(1:ℚ),10],[3,20],[5,30]]
    [((1:ℚ),5),(10,30)] [[2,15],[6,35]] ?_ ?_ ?_
  · rw [fit_eq_ok _ (by simp) (by decide)]
    norm_num [fitBounds, numCols, column, listMin, listMax, List.range_succ,
      min_def, max_def]
  · intro row hr
    rcases List.mem_cons.mp hr with h | h
    · subst h; rfl
    · rcases List.mem_cons.mp h with h2 | h2
      · subst h2; rfl
      · cases h2
  · intro p hp
    rcases List.mem_cons.mp hp with h | h
    · subst h; norm_num
    · rcases List.mem_cons.mp h with h2 | h2
      · subst h2; norm_num
      · cases h2

/-- C3: transforming the exact training matrix yields, in every
non-degenerate column, values all in [0, 1] with column minimum exactly 0
and column maximum exactly 1. -/
theorem c3_training_matrix_scales_to_unit_range
    (M : FeatureMatrix) (st : ScalerState) (i : ℕ)
    (hfit : fit M = .ok st) (hi : i < numCols M)
    (hnd : listMin (column M i) ≠ listMax (column M i)) :
    (∀ v ∈ column (transform st M) i, 0 ≤ v ∧ v ≤ 1) ∧
    listMin (column (transform st M) i) = 0 ∧
    listMax (column (transform st M) i) = 1 := by
  obtain ⟨hne, hrect, hst⟩ := fit_ok_inv M st hfit
  subst hst
  have hmn_mem := listMin_mem _ (column_nonempty M hne i)
  have hmx_mem := listMax_mem _ (column_nonempty M hne i)
  have hlt : listMin (column M i) < listMax (column M i) :=
    lt_of_le_of_ne (listMin_le _ _ hmx_mem) hnd
  have hpos : 0 < listMax (column M i) - listMin (column M i) := sub_pos.mpr hlt
  have hne2 : listMax (column M i) ≠ listMin (column M i) := ne_of_gt hlt
  have hbound : ∀ v ∈ column (transform (fitBounds M) M) i, 0 ≤ v ∧ v ≤ 1 := by
    intro v hv
    rw [column_transform] at hv
    obtain ⟨r, hr, rfl⟩ := List.mem_map.mp hv
    rw [transform_entry M hrect i hi r hr]
    have hxmem : r.getD i 0 ∈ column M i := List.mem_map_of_mem _ hr
    have h1 := listMin_le _ _ hxmem
    have h2 := le_listMax _ _ hxmem
    rw [scaleValue, if_neg hne2]
    constructor
    · exact div_nonneg (sub_nonneg.mpr h1) (le_of_lt hpos)
    · rw [div_le_one hpos]
      exact sub_le_sub_right h2 _
  have hzero : (0:ℚ) ∈ column (transform (fitBounds M) M) i := by
    obtain ⟨r, hr, hrv⟩ := (mem_column M i _).mp hmn_mem
    rw [column_transform]
    refine List.mem_map.mpr ⟨r, hr, ?_⟩
    rw [transform_entry M hrect i hi r hr, hrv, scaleValue, if_neg hne2,
      sub_self, zero_div]
  have hone : (1:ℚ) ∈ column (transform (fitBounds M) M) i := by
    obtain ⟨r, hr, hrv⟩ := (mem_column M i _).mp hmx_mem
    rw [column_transform]
    refine List.mem_map.mpr ⟨r, hr, ?_⟩
    rw [transform_entry M hrect i hi r hr, hrv, scaleValue, if_neg hne2,
      div_self (ne_of_gt hpos)]
  refine ⟨hbound, ?_, ?_⟩
  · have hc : column (transform (fitBounds M) M) i ≠ [] := by
      intro h
      rw [h] at hzero
      cases hzero
    exact le_antisymm (listMin_le _ _ hzero)
      ((hbound _ (listMin_mem _ hc)).1)
  · have hc : column (transform (fitBounds M) M) i ≠ [] := by
      intro h
      rw [h] at hone
      cases hone
    exact le_antisymm ((hbound _ (listMax_mem _ hc)).2)
      (le_listMax _ _ hone)

/-- Witness for C3 at the training matrix [[1,10],[3,20],[5,30]], column 0. -/
theorem c3_witness :
    listMin (column (transform [((1:ℚ),5),(10,30)] [[(1:ℚ),10],[3,20],[5,30]]) 0) = 0 ∧
    listMax (column (transform [((1:ℚ),5),(10,30)] [[(1:ℚ),10],[3,20],[5,30]]) 0) = 1 := by
  have h := c3_training_matrix_scales_to_unit_range
    [[(1:ℚ),10],[3,20],[5,30]] [((1:ℚ),5),(10,30)] 0
    (by rw [fit_eq_ok _ (by simp) (by decide)]
        norm_num [fitBounds, numCols, column, listMin, listMax, List.range_succ,
          min_def, max_def])
    (by decide)
    (by norm_num [column, listMin, listMax, min_def, max_def])
  exact ⟨h.2.1, h.2.2⟩

/-- C4: for every fitted scaler, on a degenerate column (max_i = min_i)
`transform` applies the documented spec policy: it outputs 0 for that
column, never performing the division, so no NaN or infinity can arise. -/
theorem c4_degenerate_column_outputs_zero
    (M Y : FeatureMatrix) (st : ScalerState) (i : ℕ) (mn mx : ℚ)
    (_hfit : fit M = .ok st) (hb : st[i]? = some (mn, mx)) (hdeg : mx = mn) :
    column (transform st Y) i = List.replicate Y.length 0 := by
  rw [column_transform]
  have hlen : (Y.map (fun r => (transformRow st r).getD i 0)).length = Y.length := by
    simp
  rw [← hlen]
  apply List.eq_replicate_length.mpr
  intro v hv
  obtain ⟨r, hr, rfl⟩ := List.mem_map.mp hv
  by_cases hlt : i < (transformRow st r).length
  · have hir : i < r.length := by
      have hzl : (transformRow st r).length = min r.length st.length := by
        simp [transformRow]
      rw [hzl] at hlt
      exact lt_of_lt_of_le hlt (min_le_left _ _)
    have hx := getElem?_of_lt_length r i hir
    have hget := transformRow_get st r i (r.getD i 0) mn mx hx hb
    simp [List.getD_eq_getD_get?, List.get?_eq_getElem?, hget, scaleValue, hdeg]
  · push_neg at hlt
    exact List.getD_eq_default _ _ hlt

/-- Witness for C4: scaler fitted on the constant-column matrix
[[2,10],[2,20],[2,30]], transforming [[2,10],[7,20]]. -/
theorem c4_witness :
    column (transform [((2:ℚ),2),(10,30)] [[2,10],[7,20]]) 0 =
      List.replicate 2 0 := by
  have h := c4_degenerate_column_outputs_zero
    [[(2:ℚ),10],[2,20],[2,30]] [[2,10],[7,20]] [((2:ℚ),2),(10,30)] 0 2 2
    (by rw [fit_eq_ok _ (by simp) (by decide)]
        norm_num [fitBounds, numCols, column, listMin, listMax, List.range_succ,
          min_def, max_def])
    (by simp) rfl
  exact h

/-- C5: calling transform on a scaler in the Unfitted state (before any
successful fit) fails with UnfittedStateError, for every input matrix. -/
theorem c5_transform_before_fit_errors (M : FeatureMatrix) :
    transformScaler initScaler M = .error .unfittedStateError := rfl

/-- C6: after fitting on [[1,10],[3,20],[5,30]], transform maps [3,20] to
[0.5, 0.5], maps [5,30] to [1.0, 1.0], and maps the out-of-range vector
[6,35] to [1.25, 1.25]. -/
theorem c6_concrete_transform_values :
    ∃ st, fit [[(1:ℚ),10],[3,20],[5,30]] = .ok st ∧
      transform st [[3,20]] = [[1/2, 1/2]] ∧
      transform st [[5,30]] = [[1, 1]] ∧
      transform st [[6,35]] = [[5/4, 5/4]] := by
  refine ⟨[(1,5),(10,30)], ?_, ?_, ?_, ?_⟩
  · rw [fit_eq_ok _ (by simp) (by decide)]
    norm_num [fitBounds, numCols, column, listMin, listMax, List.range_succ,
      min_def, max_def]
  · norm_num [transform, transformRow, scaleValue]
  · norm_num [transform, transformRow, scaleValue]
  · norm_num [transform, transformRow, scaleValue]

/-- C8: fit fails with InvalidInputError exactly on a matrix with zero rows
or ragged column counts, and succeeds exactly on a nonempty rectangular
matrix (so success implies at least one row). -/
theorem c8_fit_validates_input (M : FeatureMatrix) :
    (fit M = .error .invalidInputError ↔ M = [] ∨ isRectangular M = false) ∧
    ((∃ st, fit M = .ok st) ↔ M ≠ [] ∧ isRectangular M = true) := by
  constructor
  · constructor
    · intro h
      by_cases hne : M = []
      · exact Or.inl hne
      · by_cases hrect : isRectangular M
        · rw [fit_eq_ok M hne hrect] at h
          cases h
        · exact Or.inr (by simpa using hrect)
    · intro h
      rcases h with h | h
      · simp [fit, h]
      · by_cases hne : M = []
        · simp [fit, hne]
        · simp [fit, hne, h]
  · constructor
    · rintro ⟨st, h⟩
      obtain ⟨hne, hrect, -⟩ := fit_ok_inv M st h
      exact ⟨hne, hrect⟩
    · rintro ⟨hne, hrect⟩
      exact ⟨fitBounds M, fit_eq_ok M hne hrect⟩

theorem selectRows_mem (f : ℕ → Bool) (i : ℕ) (M : FeatureMatrix)
    (r : List ℚ) (h : r ∈ selectRows f i M) : r ∈ M := by
  induction M generalizing i with
  | nil => cases h
  | cons a t ih =>
    simp only [selectRows] at h
    by_cases hf : f i
    · rw [if_pos hf] at h
      rcases List.mem_cons.mp h with h2 | h2
      · exact h2 ▸ List.mem_cons_self a t
      · exact List.mem_cons_of_mem a (ih (i + 1) h2)
    · rw [if_neg hf] at h
      exact List.mem_cons_of_mem a (ih (i + 1) h)

/-- C7: when one model collaborator fails and another succeeds, the
experiment run still records the succeeding model's score (and reports the
failing model's error) instead of aborting the whole comparison. -/
theorem c7_runner_isolates_model_failures
    (models : List ModelCollaborator) (train test : FeatureMatrix)
    (bad good : ModelCollaborator) (e : String) (s : ℚ)
    (hbad : bad ∈ models) (hfail : bad.evalModel train test = .error e)
    (hgood : good ∈ models) (hok : good.evalModel train test = .ok s) :
    (good.name, Except.ok s) ∈ runExperiment models train test ∧
    (bad.name, Except.error e) ∈ runExperiment models train test := by
  constructor
  · exact List.mem_map.mpr ⟨good, hgood, by simp [hok]⟩
  · exact List.mem_map.mpr ⟨bad, hbad, by simp [hfail]⟩

/-- Witness for C7: a failing and a succeeding collaborator run together. -/
theorem c7_witness :
    ("logistic", Except.ok ((7:ℚ)/10)) ∈
      runExperiment [failingModel, succeedingModel] [[1]] [[1]] ∧
    ("svm", Except.error "diverged") ∈
      runExperiment [failingModel, succeedingModel] [[1]] [[1]] := by
  have h := c7_runner_isolates_model_failures
    [failingModel, succeedingModel] [[1]] [[1]]
    failingModel succeedingModel "diverged" (7/10)
    (List.mem_cons_self _ _) rfl
    (List.mem_cons_of_mem _ (List.mem_cons_self _ _)) rfl
  exact ⟨h.1, h.2⟩

/-- C9: every predictor row handed out by the prepared train/test split
comes from a raw dataset row whose missing entries were all replaced by 0
(and whose present entries were kept), so the matrices handed to the scaler
contain no missing values. -/
theorem c9_missing_values_filled_before_split
    (D : List RawRow) (isTest : ℕ → Bool) (row : List ℚ)
    (hmem : row ∈ (splitPredictors D isTest).1 ∨
            row ∈ (splitPredictors D isTest).2) :
    ∃ raw ∈ D, row = fillRow raw ∧
      (∀ (j : ℕ), raw[j]? = some none → row[j]? = some 0) ∧
      (∀ (j : ℕ) (x : ℚ), raw[j]? = some (some x) → row[j]? = some x) := by
  have hfill : row ∈ fillna0 D := by
    rcases hmem with h | h
    · exact selectRows_mem _ _ _ _ h
    · exact selectRows_mem _ _ _ _ h
  obtain ⟨raw, hraw, hrow⟩ := List.mem_map.mp hfill
  subst hrow
  refine ⟨raw, hraw, rfl, ?_, ?_⟩
  · intro j hj
    simp [fillRow, List.getElem?_map, hj]
  · intro j x hj
    simp [fillRow, List.getElem?_map, hj]

/-- Witness for C9: the one-row dataset [[some 3, none]] with everything in
the train part. -/
theorem c9_witness :
    ∃ raw ∈ [[some (3:ℚ), none]], [(3:ℚ), 0] = fillRow raw ∧
      (∀ (j : ℕ), raw[j]? = some none → ([(3:ℚ), 0] : List ℚ)[j]? = some 0) ∧
      (∀ (j : ℕ) (x : ℚ), raw[j]? = some (some x) →
        ([(3:ℚ), 0] : List ℚ)[j]? = some x) :=
  c9_missing_values_filled_before_split [[some (3:ℚ), none]]
    (fun _ => false) [(3:ℚ), 0]
    (Or.inl (by simp [splitPredictors, selectRows, fillna0, fillRow]))

/-- C10: the scaling step does not mutate its input matrices: after the
scaling cell runs, the bindings of `X_train` and `X_test` are unchanged, so
the models later trained on the unscaled `X_train` see the original data
(`transform` is modelled as pure, returning a fresh matrix, per the spec's
read-only application of ScalerState). -/
theorem c10_scaling_cell_preserves_inputs
    (env env2 : NotebookEnv) (h : runScalingCell env = .ok env2) :
    env2.xTrain = env.xTrain ∧ env2.xTest = env.xTest := by
  unfold runScalingCell at h
  cases hf : fit env.xTrain with
  | error e =>
    rw [hf] at h
    simp [Bind.bind, Except.bind] at h
  | ok st =>
    rw [hf] at h
    simp only [Bind.bind, Except.bind, transformScaler, pure, Except.pure] at h
    have h2 := (Except.ok.injEq _ _).mp h
    rw [← h2]
    exact ⟨rfl, rfl⟩

/-- Witness for C10: the scaling cell run on a concrete environment. -/
theorem c10_witness :
    ({ xTrain := [[0],[1]], xTest := [[2]],
       xTrainScaled := some [[0],[1]], xTestScaled := some [[2]],
       scalerSt := some [(0,1)] } : NotebookEnv).xTrain =
      ({ xTrain := [[0],[1]], xTest := [[2]], xTrainScaled := none,
         xTestScaled := none, scalerSt := none } : NotebookEnv).xTrain ∧
    ({ xTrain := [[0],[1]], xTest := [[2]],
       xTrainScaled := some [[0],[1]], xTestScaled := some [[2]],
       scalerSt := some [(0,1)] } : NotebookEnv).xTest =
      ({ xTrain := [[0],[1]], xTest := [[2]], xTrainScaled := none,
         xTestScaled := none, scalerSt := none } : NotebookEnv).xTest := by
  apply c10_scaling_cell_preserves_inputs
  rw [runScalingCell]
  rw [show fit [[(0:ℚ)],[1]] = .ok [(0,1)] from by
    rw [fit_eq_ok _ (by simp) (by decide)]
    norm_num [fitBounds, numCols, column, listMin, listMax, List.range_succ,
      min_def, max_def]]
  simp only [Bind.bind, Except.bind, transformScaler, pure, Except.pure]
  norm_num [transform, transformRow, scaleValue]

end FeatureScaling
